import Mathlib

/-!
Verification of the sidekick-ai Local Completion Orchestration Engine.

The TypeScript sources are shallowly embedded: JS strings become `List Char`,
the JS `Map` (insertion-ordered) becomes an association list whose head is the
oldest entry, and each effectful operation becomes a pure function taking the
relevant provider state plus an explicit HTTP outcome parameter.
-/

namespace Sidekick

/-- JS strings, embedded as lists of characters. -/
abbrev Str := List Char

/-- The completion cache: a JS `Map<string, string>`, i.e. an insertion-ordered
association list.  The head is the oldest-inserted entry. -/
abbrev Cache := List (Str × Str)

/-- Whitespace recognized by `String.prototype.trim` (restricted to the ASCII
whitespace characters that occur in this code base). -/
def isJsWs (c : Char) : Bool :=
  c == ' ' || c == '\t' || c == '\n' || c == '\r' || c == '\x0b' || c == '\x0c'

/-- `String.prototype.trim()`: drop leading and trailing whitespace. -/
def jsTrim (l : Str) : Str :=
  ((l.dropWhile isJsWs).reverse.dropWhile isJsWs).reverse

/-- `Map.prototype.get` / `has`: first entry with the given key. -/
def mapGet : Cache → Str → Option Str
  | [], _ => none
  | (k, v) :: rest, key => if k = key then some v else mapGet rest key

/-- `Map.prototype.set`: update the value in place if the key is present
(keeping its insertion position), otherwise append a new youngest entry. -/
def mapSet : Cache → Str → Str → Cache
  | [], k, v => [(k, v)]
  | (k', v') :: rest, k, v =>
      if k' = k then (k', v) :: rest else (k', v') :: mapSet rest k v

/-- The cache-insertion step of `generateCompletion`
(`src/unnamed/part_000` lines 353-360): `set` the new entry, then if the size
exceeds 100 delete the entry under the first (oldest) key. -/
def cachePut (m : Cache) (k v : Str) : Cache :=
  let m2 := mapSet m k v
  if 100 < m2.length then m2.drop 1 else m2

/-- Folding a sequence of insertions through `cachePut` from a given cache,
oldest first. -/
def insertFrom (m : Cache) (l : List (Str × Str)) : Cache :=
  l.foldl (fun acc e => cachePut acc e.1 e.2) m

/-- Folding a whole sequence of insertions through `cachePut`, oldest first. -/
def insertAll (l : List (Str × Str)) : Cache :=
  insertFrom [] l

/-- A sequence of insertions follows the completion path from cache `m`: each
inserted key misses the cache as it stands at that insertion (the cache-hit
early return of `generateCompletion` guarantees exactly this, per step — a key
may recur later, once eviction has removed it). -/
def missesAll : Cache → List (Str × Str) → Bool
  | _, [] => true
  | m, e :: rest => (mapGet m e.1).isNone && missesAll (cachePut m e.1 e.2) rest

/-- A 102-step completion-path insertion sequence: 101 pairwise-distinct keys
followed by a re-insertion of the first key, which by then has been evicted —
so the final insertion is a genuine miss although the sequence repeats a key. -/
def fifoW : List (Str × Str) :=
  ((List.range 101).map fun i => ([Char.ofNat (48 + i)], [Char.ofNat 48])) ++
    [([Char.ofNat 48], [Char.ofNat 49])]

/-- The cache fingerprint of `generateCompletion`
(`src/unnamed/part_000` line 263): `prompt.trim().substring(prompt.length - 50)`.
Note that the start index uses the *untrimmed* length but indexes into the
*trimmed* string; `substring` clamps a negative start to 0, which Nat
subtraction models exactly. -/
def cacheKeyOf (prompt : Str) : Str :=
  (jsTrim prompt).drop (prompt.length - 50)

/-- `prompt.split('\n')[lines.length - 1]`: the text after the last newline. -/
def lastLine (l : Str) : Str :=
  (l.reverse.takeWhile (fun c => c ≠ '\n')).reverse

/-- The fullwidth vertical bar U+FF5C used by the DeepSeek FIM tokens. -/
def fwBar : Char := Char.ofNat 0xFF5C

/-- Matcher for the regex `<｜fim[^｜]*｜>` at the head of the list; returns the
length of the match.  The greedy `[^｜]*` cannot cross a `｜`, so it is exactly
`takeWhile (· ≠ ｜)` followed by the mandatory `｜>`. -/
def matchFimA (l : Str) : Option Nat :=
  match l with
  | '<' :: c1 :: 'f' :: 'i' :: 'm' :: rest =>
      if c1 = fwBar then
        let mid := rest.takeWhile (fun c => c ≠ fwBar)
        match rest.drop mid.length with
        | c2 :: '>' :: _ => if c2 = fwBar then some (7 + mid.length) else none
        | _ => none
      else none
  | _ => none

/-- Matcher for the regex `<fim_[^>]+>` at the head of the list. -/
def matchFimB (l : Str) : Option Nat :=
  match l with
  | '<' :: 'f' :: 'i' :: 'm' :: '_' :: rest =>
      let mid := rest.takeWhile (fun c => c ≠ '>')
      if mid.length = 0 then none
      else
        match rest.drop mid.length with
        | '>' :: _ => some (6 + mid.length)
        | _ => none
  | _ => none

/-- Matcher for the regex `<(PRE|SUF|MID)>` at the head of the list. -/
def matchTag (l : Str) : Option Nat :=
  if List.isPrefixOf ("<PRE>".data) l ∨ List.isPrefixOf ("<SUF>".data) l ∨
      List.isPrefixOf ("<MID>".data) l then some 5 else none

/-- Global regex replacement by the empty string, structured on a fuel argument
so that it reduces by structural recursion: scan left to right, and on a match
skip the matched span and resume scanning right after it.  One unit of fuel is
spent per inspected position, so `l.length` fuel always suffices. -/
def stripWithFuel (f : Str → Option Nat) : Nat → Str → Str
  | 0, l => l
  | _ + 1, [] => []
  | fuel + 1, c :: rest =>
      match f (c :: rest) with
      | some n =>
          if 0 < n then stripWithFuel f fuel ((c :: rest).drop n)
          else c :: stripWithFuel f fuel rest
      | none => c :: stripWithFuel f fuel rest

/-- Global regex replacement by the empty string over the whole list. -/
def stripWith (f : Str → Option Nat) (l : Str) : Str :=
  stripWithFuel f l.length l

/-- The three FIM-token removal passes of `cleanCompletion`
(`src/unnamed/part_000` lines 372-374), in source order. -/
def stripFimTokens (l : Str) : Str :=
  stripWith matchTag (stripWith matchFimB (stripWith matchFimA l))

/-- The break-point characters of `cleanCompletion` line 387, in source order. -/
def breakPoints : List Char := [';', Char.ofNat 0x7b, ')', ']', ',']

/-- The break-point loop of `cleanCompletion` lines 388-394: for each class in
`breakPoints` order, take its first-occurrence index (`indexOf`) and stop at the
first class whose index satisfies `0 < idx ∧ idx ≤ 50`. -/
def findBreakIdx : List Char → Str → Option Nat
  | [], _ => none
  | p :: ps, s =>
      match s.findIdx? (fun c => c == p) with
      | some i => if 0 < i ∧ i ≤ 50 then some i else findBreakIdx ps s
      | none => findBreakIdx ps s

/-- The length-limiting block of `cleanCompletion` lines 385-398. -/
def limitLen (s : Str) : Str :=
  if 50 < s.length then
    let s1 :=
      match findBreakIdx breakPoints s with
      | some i => s.take (i + 1)
      | none => s
    if 50 < s1.length then s1.take 50 else s1
  else s

/-- `cleanCompletion(completion, currentLine)` (`src/unnamed/part_000`
lines 370-401): strip every family's FIM/control tokens, drop an exact leading
repeat of the current line, keep only the first line trimmed, then apply the
break-point length limit. -/
def cleanCompletion (completion currentLine : Str) : Str :=
  let c1 := stripFimTokens completion
  let c2 := if List.isPrefixOf currentLine c1 then c1.drop currentLine.length else c1
  let c3 := jsTrim (c2.takeWhile (fun c => c ≠ '\n'))
  limitLen c3

/-- `String.prototype.includes(pat)`: some contiguous run of `l` equals `pat`. -/
def hasSub (pat : Str) : Str → Bool
  | [] => pat.isEmpty
  | c :: rest => List.isPrefixOf pat (c :: rest) || hasSub pat rest

/-- `getFallbackCompletion(prompt)` (`src/unnamed/part_000` lines 446-462):
the deterministic Fallback Heuristic Engine. -/
def getFallbackCompletion (prompt : Str) : Str :=
  let currentLine := lastLine prompt
  let trimmed := jsTrim currentLine
  if hasSub ("factorial".data) prompt ∧ hasSub ("return 1;".data) currentLine then
    "\n  return n * factorial(n - 1);".data
  else if trimmed.getLast? = some ';' then "\n  ".data
  else if trimmed.getLast? = some '=' then " ".data
  else if trimmed.getLast? = some '.' then ([] : Str)
  else if trimmed.getLast? = some ',' then " ".data
  else []

/-- Outcome of the single `fetch` a provider method performs: the promise
rejected (network error / thrown exception), or a response with its `ok` flag
and the optional `content` field of the decoded JSON body. -/
inductive HttpOutcome where
  | netError : HttpOutcome
  | response : Bool → Option Str → HttpOutcome
deriving DecidableEq

/-- `data.content?.trim() || ''`. -/
def contentOrEmpty (content : Option Str) : Str :=
  (content.map jsTrim).getD []

/-- `generateCompletion(prompt, context, maxTokens)` of the llama.cpp provider
(`src/unnamed/part_000` lines 248-368), as a pure function of the cache, the
`isServerRunning` flag, the prompt and the HTTP outcome.  Returns the completion
string together with the cache state after the call. -/
def generateCompletion (cache : Cache) (serverRunning : Bool) (prompt : Str)
    (o : HttpOutcome) : Str × Cache :=
  let cacheKey := cacheKeyOf prompt
  match mapGet cache cacheKey with
  | some v => (v, cache)
  | none =>
      if !serverRunning then (getFallbackCompletion prompt, cache)
      else
        match o with
        | .netError => (getFallbackCompletion prompt, cache)
        | .response ok content =>
            if !ok then (getFallbackCompletion prompt, cache)
            else
              let currentLine := lastLine prompt
              let completion := cleanCompletion (contentOrEmpty content) currentLine
              if completion = [] then (getFallbackCompletion prompt, cache)
              else (completion, cachePut cache cacheKey completion)

/-- The regex `^```[\w]*\n?` replaced by the empty string: an opening markdown
fence, an optional language word, and an optional newline, anchored at the
start. -/
def stripLeadFence (l : Str) : Str :=
  if List.isPrefixOf ("```".data) l then
    let r := (l.drop 3).dropWhile (fun c => c.isAlphanum || c == '_')
    match r with
    | '\n' :: r2 => r2
    | _ => r
  else l

/-- The regex `\n?```$` replaced by the empty string: a closing markdown fence,
optionally preceded by a newline, anchored at the end. -/
def stripTrailFence (l : Str) : Str :=
  if List.isPrefixOf ("```".data) l.reverse then
    match l.reverse.drop 3 with
    | '\n' :: r2 => r2.reverse
    | r => r.reverse
  else l

/-- The markdown cleaning shared by `refactorCode` (lines 575-576) and
`generateTests` (lines 627-628): strip the fences, then trim. -/
def cleanFences (l : Str) : Str :=
  jsTrim (stripTrailFence (stripLeadFence l))

/-- `explainCode(code, context)` (`src/unnamed/part_000` lines 488-532) as a
pure function of the `isServerRunning` flag and the HTTP outcome. -/
def explainCode (serverRunning : Bool) (code ctx : Str) (o : HttpOutcome) : Str :=
  if !serverRunning then "Server not running. Please start the llama.cpp server.".data
  else
    match o with
    | .netError => "Unable to explain code".data
    | .response ok content =>
        if !ok then "Failed to explain code".data
        else
          let explanation :=
            match content.map jsTrim with
            | some e => if e = [] then "Unable to explain code".data else e
            | none => "Unable to explain code".data
          jsTrim explanation

/-- `refactorCode(code, instruction, context)` (`src/unnamed/part_000`
lines 534-583) as a pure function of the `isServerRunning` flag and the HTTP
outcome. -/
def refactorCode (serverRunning : Bool) (code instruction ctx : Str)
    (o : HttpOutcome) : Str :=
  if !serverRunning then code
  else
    match o with
    | .netError => code
    | .response ok content =>
        if !ok then code
        else
          let refactored := cleanFences (contentOrEmpty content)
          if refactored = [] then code else refactored

/-- `detectLanguage(code)` (`src/unnamed/part_000` lines 749-757). -/
def detectLanguage (code : Str) : Str :=
  if hasSub ("def ".data) code || hasSub ("import ".data) code then "python".data
  else if hasSub ("function".data) code || hasSub ("const ".data) code then
    "javascript".data
  else if hasSub ("public class".data) code || hasSub ("private ".data) code then
    "java".data
  else if hasSub ("fn ".data) code || hasSub ("let mut".data) code then "rust".data
  else if hasSub ("package main".data) code || hasSub ("func ".data) code then
    "go".data
  else "unknown".data

/-- The jest boilerplate prepended by `generateTests` (lines 636-639). -/
def chaiBoilerplate : Str :=
  "// Tests for the provided function\nconst \x7b expect \x7d = require(\x27chai\x27);\n\n".data

/-- `generateTests(code, context)` (`src/unnamed/part_000` lines 585-647) as a
pure function of the `isServerRunning` flag and the HTTP outcome. -/
def generateTests (serverRunning : Bool) (code ctx : Str) (o : HttpOutcome) : Str :=
  if !serverRunning then "// Test generation not available".data
  else
    let language := detectLanguage code
    match o with
    | .netError => "// Unable to generate tests".data
    | .response ok content =>
        if !ok then "// Unable to generate tests".data
        else
          let tests := cleanFences (contentOrEmpty content)
          if tests = [] then "// Unable to generate tests".data
          else
            if language = "javascript".data ∧ ¬hasSub ("describe".data) tests ∧
                ¬hasSub ("test".data) tests then
              chaiBoilerplate ++ tests
            else tests

/-- `isInComment(text)` (`InlineCompletionProvider.ts` lines 93-96). -/
def isInComment (text : Str) : Bool :=
  hasSub ("//".data) text || hasSub ("#".data) text || hasSub ("/*".data) text

/-- `isInString(text)` (`InlineCompletionProvider.ts` lines 98-103): odd count
of single quotes or odd count of double quotes, escaped occurrences included
(the regexes `/'/g` and `/"/g` count every quote character). -/
def isInString (text : Str) : Bool :=
  text.count (Char.ofNat 0x27) % 2 == 1 || text.count '"' % 2 == 1

/-- `beforeCursor[beforeCursor.length - 1] === ' ' || … === '\n'`
(`InlineCompletionProvider.ts` lines 84-85); indexing an empty string yields
`undefined`, on which both comparisons are false. -/
def lastIsSpaceOrNl (t : Str) : Bool :=
  match t.getLast? with
  | some c => c == ' ' || c == '\n'
  | none => false

/-- `shouldSkipCompletion` (`InlineCompletionProvider.ts` lines 69-91), with
`beforeCursor` the current line up to the cursor and `auto` true exactly when
`context.triggerKind` is `Automatic`.  The early returns of the source become a
disjunction. -/
def shouldSkipCompletion (beforeCursor : Str) (auto : Bool) : Bool :=
  (isInComment beforeCursor || isInString beforeCursor) ||
    (auto && lastIsSpaceOrNl beforeCursor)

/-- The complete suppression gate of `provideInlineCompletionItems`
(`InlineCompletionProvider.ts` lines 25-35): the request is dropped (an empty
item list returned before any backend work) iff `shouldSkipCompletion` fires or
the trimmed line prefix is shorter than 3 characters. -/
def suppressesCompletion (linePrefixText : Str) (auto : Bool) : Bool :=
  shouldSkipCompletion linePrefixText auto ||
    decide ((jsTrim linePrefixText).length < 3)

/-- Count of quote characters `q` not immediately preceded by a backslash,
tracking the previous character. -/
def countUnescapedFrom (q : Char) : Option Char → Str → Nat
  | _, [] => 0
  | prev, c :: rest =>
      (if c = q ∧ prev ≠ some '\\' then 1 else 0) + countUnescapedFrom q (some c) rest

/-- Count of unescaped occurrences of the quote character `q`. -/
def countUnescaped (q : Char) (l : Str) : Nat :=
  countUnescapedFrom q none l

/-- Modelled from the claim's wording, for comparison with the code's gate:
suppress exactly when the trimmed prefix is shorter than 3 characters, or the
prefix contains a comment-opening token, or it contains an odd count of an
*unescaped* quote character, or the trigger is automatic and the preceding
character is whitespace or a newline. -/
def claimSuppressSpec (linePrefixText : Str) (auto : Bool) : Bool :=
  decide ((jsTrim linePrefixText).length < 3) ||
    isInComment linePrefixText ||
    countUnescaped (Char.ofNat 0x27) linePrefixText % 2 == 1 ||
    countUnescaped '"' linePrefixText % 2 == 1 ||
    (auto &&
      match linePrefixText.getLast? with
      | some c => isJsWs c
      | none => false)

/-- `switchModel(modelName)` of the llama.cpp provider (`src/unnamed/part_000`
lines 744-747): model switching is not implemented, the body only logs, so the
provider state — in particular the completion cache — is left unchanged. -/
def llamaSwitchModel (modelCache : Cache) (modelName : Str) : Cache :=
  modelCache

/-- State of the Ollama provider variant
(`src/src/providers/LocalAIProvider.ts`). -/
structure OllamaState where
  currentModel : Str
  modelCache : Cache

/-- `switchModel(modelName)` of the Ollama provider variant
(`src/src/providers/LocalAIProvider.ts` lines 341-347): set the current model
and clear the cache. -/
def ollamaSwitchModel (s : OllamaState) (modelName : Str) : OllamaState :=
  { currentModel := modelName, modelCache := [] }

/-! ### Helper lemmas -/

/-- `Map.set` with a key absent from the map appends a new youngest entry. -/
theorem mapSet_append (m : Cache) (k v : Str) (h : ∀ e ∈ m, e.1 ≠ k) :
    mapSet m k v = m ++ [(k, v)] := by
  induction m with
  | nil => rfl
  | cons e rest ih =>
      have hek : e.1 ≠ k := h e (by simp)
      cases e with
      | mk k' v' =>
          simp only [mapSet, if_neg hek, List.cons_append, List.cons.injEq, true_and]
          exact ih fun e' he' => h e' (by simp [he'])

/-- A missed key is held by no entry of the cache. -/
theorem mapGet_none_forall (m : Cache) (k : Str) :
    mapGet m k = none → ∀ e ∈ m, e.1 ≠ k := by
  induction m with
  | nil => intro _ e he; simp at he
  | cons a rest ih =>
      intro h e he
      obtain ⟨k', v'⟩ := a
      simp only [mapGet] at h
      by_cases hk : k' = k
      · rw [if_pos hk] at h; exact absurd h (by simp)
      · rw [if_neg hk] at h
        rcases List.mem_cons.mp he with rfl | hmem
        · exact hk
        · exact ih h e hmem

/-- `missesAll` splits across an appended sequence. -/
theorem missesAll_append (l1 l2 : List (Str × Str)) :
    ∀ m : Cache, missesAll m (l1 ++ l2) =
      (missesAll m l1 && missesAll (insertFrom m l1) l2) := by
  induction l1 with
  | nil => intro m; simp [missesAll, insertFrom]
  | cons e l1 ih =>
      intro m
      simp only [List.cons_append, missesAll, List.append_eq]
      rw [ih]
      rw [Bool.and_assoc]
      rfl

/-- `Map.set` grows the cache by at most one entry. -/
theorem mapSet_length_le (m : Cache) (k v : Str) :
    (mapSet m k v).length ≤ m.length + 1 := by
  induction m with
  | nil => simp [mapSet]
  | cons a rest ih =>
      obtain ⟨k', v'⟩ := a
      simp only [mapSet]
      by_cases hk : k' = k
      · rw [if_pos hk]; simp
      · rw [if_neg hk]
        simp only [List.length_cons]
        omega

/-- The insert-then-evict step keeps the cache within capacity, for every key
(fresh or not). -/
theorem cachePut_length_le (m : Cache) (k v : Str) (h : m.length ≤ 100) :
    (cachePut m k v).length ≤ 100 := by
  have hms := mapSet_length_le m k v
  simp only [cachePut]
  by_cases hc : 100 < (mapSet m k v).length
  · rw [if_pos hc]
    simp only [List.length_drop]
    omega
  · rw [if_neg hc]; omega

/-- Folding any insertion sequence from a within-capacity cache stays within
capacity — no freshness assumption at all. -/
theorem insertFrom_length_le (l : List (Str × Str)) :
    ∀ m : Cache, m.length ≤ 100 → (insertFrom m l).length ≤ 100 := by
  induction l with
  | nil => intro m hm; exact hm
  | cons e rest ih => intro m hm; exact ih _ (cachePut_length_le m e.1 e.2 hm)

/-- On a completion-path sequence (each key a miss at its own insertion, later
re-insertion of evicted keys allowed), folding the code's insert-then-evict
step from the empty cache keeps exactly the most recent 100 insertions,
oldest first. -/
theorem insertAll_eq_drop (l : List (Str × Str))
    (h : missesAll [] l = true) :
    insertAll l = l.drop (l.length - 100) := by
  induction l using List.reverseRecOn with
  | nil => rfl
  | append_singleton xs x ih =>
      rw [missesAll_append] at h
      simp only [missesAll, Bool.and_true, Bool.and_eq_true,
        Option.isNone_iff_eq_none] at h
      obtain ⟨hxs, hmiss⟩ := h
      have hmem : ∀ e ∈ insertAll xs, e.1 ≠ x.1 :=
        mapGet_none_forall _ _ hmiss
      have hstep : insertAll (xs ++ [x]) = cachePut (insertAll xs) x.1 x.2 := by
        simp only [insertAll, insertFrom, List.foldl_append, List.foldl_cons,
          List.foldl_nil]
      have hms : mapSet (insertAll xs) x.1 x.2 = insertAll xs ++ [x] := by
        rw [mapSet_append _ _ _ hmem]
      rw [hstep]
      simp only [cachePut, hms]
      by_cases hcase : 100 ≤ xs.length
      · have h100 : (insertAll xs).length = 100 := by
          rw [ih hxs, List.length_drop]; omega
        rw [if_pos (by simp [List.length_append, h100])]
        rw [List.drop_append_of_le_length (by omega : 1 ≤ (insertAll xs).length)]
        rw [ih hxs, List.drop_drop]
        rw [List.drop_append_of_le_length
          (by simp only [List.length_append, List.length_singleton]; omega)]
        congr 2
        simp only [List.length_append, List.length_singleton]
        omega
      · have h0 : xs.length - 100 = 0 := by omega
        have hxx : insertAll xs = xs := by rw [ih hxs, h0, List.drop_zero]
        rw [hxx]
        rw [if_neg (by simp only [List.length_append, List.length_singleton]; omega)]
        have h1 : (xs ++ [x]).length - 100 = 0 := by
          simp only [List.length_append, List.length_singleton]; omega
        rw [h1, List.drop_zero]

/-- `findBreakIdx` only ever returns an index in the window `(0, 50]`. -/
theorem findBreakIdx_bounds (ps : List Char) (s : Str) (i : Nat)
    (h : findBreakIdx ps s = some i) : 0 < i ∧ i ≤ 50 := by
  induction ps with
  | nil => simp [findBreakIdx] at h
  | cons p ps ih =>
      simp only [findBreakIdx] at h
      cases hf : s.findIdx? (fun c => c == p) with
      | none => rw [hf] at h; exact ih h
      | some j =>
          rw [hf] at h
          dsimp only at h
          by_cases hj : 0 < j ∧ j ≤ 50
          · rw [if_pos hj] at h
            cases h; exact hj
          · rw [if_neg hj] at h; exact ih h

/-! ### Claim theorems -/

/-- Claim C1: the completion cache never holds more than 100 entries — for
*every* insertion sequence whatsoever — and for every completion-path sequence
(each inserted key a miss at its own insertion time, as the cache-hit early
return guarantees; an evicted key may recur later) the surviving entries are
exactly the most recent 100 insertions in insertion order — FIFO eviction of
the oldest surviving key. -/
theorem cache_bounded_fifo :
    (∀ l : List (Str × Str), (insertAll l).length ≤ 100) ∧
    (∀ l : List (Str × Str), missesAll [] l = true →
      insertAll l = l.drop (l.length - 100)) :=
  ⟨fun l => insertFrom_length_le l [] (by simp),
    fun l h => insertAll_eq_drop l h⟩

set_option maxRecDepth 8192 in
/-- Witness for C1 at the 102-step sequence `fifoW`, which re-inserts its first
key after that key's eviction: the final insertion is a genuine miss, and the
surviving cache is still exactly the last 100 insertions. -/
theorem cache_bounded_fifo_witness :
    missesAll [] fifoW = true ∧
    insertAll fifoW = fifoW.drop (fifoW.length - 100) :=
  ⟨by decide, cache_bounded_fifo.2 fifoW (by decide)⟩

/-- A 60-character first line whose earliest break-point character is the brace
at index 1, while the first break-point *class* in the source's scan order,
`;`, first occurs at index 40. -/
def exC2 : Str :=
  ['r', Char.ofNat 0x7b] ++ List.replicate 38 'a' ++ [';'] ++ List.replicate 19 'a'

/-- Claim C2 counterexample: on `exC2` the earliest break-point character by
index sits at index 1, so the claim predicts a cut ending at index 2; the code
scans the classes in listed order, finds `;` at index 40 first, and cuts after
it, keeping 41 characters. -/
theorem truncation_earliest_counterexample :
    50 < exC2.length ∧
    List.findIdx? (fun c => decide (c ∈ breakPoints)) exC2 = some 1 ∧
    limitLen exC2 = exC2.take 41 ∧ limitLen exC2 ≠ exC2.take 2 := by decide

/-- Claim C2 amended: for a first line longer than 50 characters, the code
scans the break-point classes in the listed order `;`, brace, `)`, `]`, `,`
and truncates one character after the first occurrence of the first class
whose first-occurrence index lies in `(0, 50]` (capped at 50 characters, which
only bites when that index is exactly 50); when no class qualifies it
hard-truncates at exactly 50 characters. -/
theorem truncation_priority_order (s : Str) (h : 50 < s.length) :
    limitLen s =
      match findBreakIdx breakPoints s with
      | some i => s.take (min (i + 1) 50)
      | none => s.take 50 := by
  cases hf : findBreakIdx breakPoints s with
  | none =>
      simp only [limitLen, hf, if_pos h]
  | some i =>
      obtain ⟨hi0, hi50⟩ := findBreakIdx_bounds _ _ _ hf
      simp only [limitLen, hf, if_pos h]
      have hlen : (s.take (i + 1)).length = min (i + 1) s.length :=
        List.length_take _ _
      by_cases hc : i + 1 ≤ 50
      · rw [if_neg (by rw [hlen]; have := min_le_left (i + 1) s.length; omega)]
        rw [min_eq_left hc]
      · have hi : i = 50 := by omega
        subst hi
        have h51 : min (50 + 1) s.length = 50 + 1 := min_eq_left (by omega)
        rw [if_pos (by rw [hlen, h51]; omega)]
        rw [List.take_take]
        have hm : min 50 (50 + 1) = min (50 + 1) 50 := by omega
        rw [hm]

/-- Witness for C2 (amended) at the concrete input `exC2`. -/
theorem truncation_priority_order_witness :
    50 < exC2.length ∧
    limitLen exC2 =
      match findBreakIdx breakPoints exC2 with
      | some i => exC2.take (min (i + 1) 50)
      | none => exC2.take 50 :=
  ⟨by decide, truncation_priority_order exC2 (by decide)⟩

/-- Claim C3: on a cache miss, whenever the backend interaction fails — the
fetch rejects, the response status is not ok, or normalization of the returned
content is empty — `generateCompletion` returns the deterministic Fallback
Heuristic Engine result (and leaves the cache unchanged) instead of raising. -/
theorem generateCompletion_fallback_on_failure (cache : Cache) (prompt : Str)
    (o : HttpOutcome) (hmiss : mapGet cache (cacheKeyOf prompt) = none)
    (hfail : o = .netError ∨ (∃ c, o = .response false c) ∨
      (∃ c, o = .response true c ∧
        cleanCompletion (contentOrEmpty c) (lastLine prompt) = [])) :
    generateCompletion cache true prompt o =
      (getFallbackCompletion prompt, cache) := by
  rcases hfail with h | ⟨c, h⟩ | ⟨c, h, hempty⟩ <;> subst h <;>
    simp [generateCompletion, hmiss]
  exact fun hne => absurd hempty hne

/-- Witness for C3: empty cache, network error. -/
theorem generateCompletion_fallback_witness :
    mapGet [] (cacheKeyOf ("const x = 1".data)) = none ∧
    generateCompletion [] true ("const x = 1".data) .netError =
      (getFallbackCompletion ("const x = 1".data), []) :=
  ⟨by decide,
    generateCompletion_fallback_on_failure [] _ .netError (by decide) (Or.inl rfl)⟩

/-- Claim C4: on a cache hit `generateCompletion` returns the cached completion
with the cache unchanged, for every server-readiness flag and every HTTP
outcome — so no readiness check, no HTTP call and no cache mutation can affect
the result. -/
theorem generateCompletion_cache_hit (cache : Cache) (serverRunning : Bool)
    (prompt : Str) (o : HttpOutcome) (v : Str)
    (hhit : mapGet cache (cacheKeyOf prompt) = some v) :
    generateCompletion cache serverRunning prompt o = (v, cache) := by
  simp [generateCompletion, hhit]

/-- Witness for C4: a one-entry cache hit, with the server down and the fetch
failing, still returns the cached value. -/
theorem generateCompletion_cache_hit_witness :
    mapGet [(("abc".data : Str), ("xyz".data : Str))] (cacheKeyOf ("abc".data)) =
      some ("xyz".data) ∧
    generateCompletion [(("abc".data : Str), ("xyz".data : Str))] false
        ("abc".data) .netError =
      ("xyz".data, [(("abc".data : Str), ("xyz".data : Str))]) :=
  ⟨by decide, generateCompletion_cache_hit _ false _ .netError _ (by decide)⟩

/-- The raw backend response of the C5 end-to-end scenario. -/
def rawC5 : Str := "return n * factorial(n - 1);\nfoo();".data

/-- The expected normalized completion of the C5 scenario. -/
def outC5 : Str := "return n * factorial(n - 1);".data

/-- Claim C5: for the raw response `"return n * factorial(n - 1);\nfoo();"`
and any current-line text that is not a prefix of it, the normalizer — token
stripping, prefix-echo removal, first line trimmed, length limit — returns
exactly `"return n * factorial(n - 1);"`. -/
theorem cleanCompletion_first_line_example (cur : Str)
    (h : List.isPrefixOf cur rawC5 = false) :
    cleanCompletion rawC5 cur = outC5 := by
  have hstrip : stripFimTokens rawC5 = rawC5 := by decide
  simp only [cleanCompletion, hstrip, h, Bool.false_eq_true, if_false]
  decide

/-- Witness for C5 with the current line `"foo"`. -/
theorem cleanCompletion_first_line_example_witness :
    List.isPrefixOf ("foo".data) rawC5 = false ∧
    cleanCompletion rawC5 ("foo".data) = outC5 :=
  ⟨by decide, cleanCompletion_first_line_example _ (by decide)⟩

/-- A prompt consisting of fifty `a`s followed by one trailing space. -/
def p6 : Str := List.replicate 50 'a' ++ [' ']

/-- Claim C6 counterexample: `prompt.trim().substring(prompt.length - 50)`
indexes the *trimmed* string with the *untrimmed* length, so for `p6` the key
is the 49 `a`s — not the trailing 50-character suffix; moreover `p6` and the
49-character prompt of plain `a`s have different trailing suffixes but the same
key. -/
theorem cacheKey_not_trailing_suffix :
    cacheKeyOf p6 ≠ p6.drop (p6.length - 50) ∧
    cacheKeyOf p6 = cacheKeyOf (List.replicate 49 'a') ∧
    p6.drop (p6.length - 50) ≠
      (List.replicate 49 'a' : Str).drop ((List.replicate 49 'a' : Str).length - 50) := by
  decide

/-- Claim C6 amended: for prompts unchanged by trimming (no leading or trailing
whitespace) the fingerprint is exactly the trailing 50 characters (the whole
prompt when shorter than 50), and two such prompts sharing that trailing
suffix share the cache key. -/
theorem cacheKey_trailing_of_trimmed (p q : Str) (hp : jsTrim p = p)
    (hq : jsTrim q = q) :
    cacheKeyOf p = p.drop (p.length - 50) ∧
    (p.drop (p.length - 50) = q.drop (q.length - 50) →
      cacheKeyOf p = cacheKeyOf q) := by
  constructor
  · rw [cacheKeyOf, hp]
  · intro h
    rw [cacheKeyOf, cacheKeyOf, hp, hq]
    exact h

/-- Witness for C6 (amended) at two concrete whitespace-free prompts. -/
theorem cacheKey_trailing_of_trimmed_witness :
    jsTrim ("abc".data) = "abc".data ∧ jsTrim ("xabc".data) = "xabc".data ∧
    (cacheKeyOf ("abc".data) =
        ("abc".data : Str).drop (("abc".data : Str).length - 50) ∧
      (("abc".data : Str).drop (("abc".data : Str).length - 50) =
          ("xabc".data : Str).drop (("xabc".data : Str).length - 50) →
        cacheKeyOf ("abc".data) = cacheKeyOf ("xabc".data))) :=
  ⟨by decide, by decide,
    cacheKey_trailing_of_trimmed ("abc".data) ("xabc".data) (by decide) (by decide)⟩

/-- A current-line prefix holding a string literal with an escaped inner double
quote: `const s = "a\"b";x`. -/
def p7 : Str := "const s = \"a\\\"b\";x".data

/-- A current-line prefix ending in a tab character. -/
def p7tab : Str := "const x =\t".data

/-- Claim C7 counterexample: on `p7` with an explicit trigger the claim's
characterization (odd count of an *unescaped* quote) says the request is not
suppressed — the unescaped double quotes number two — but the code counts every
quote character, finds three, and suppresses; and on `p7tab` with an automatic
trigger the claim (preceding character is whitespace) says the request is
suppressed, but the code only tests for a space or a newline, not a tab, and
does not suppress. -/
theorem suppression_escaped_quote_counterexample :
    (suppressesCompletion p7 false = true ∧ claimSuppressSpec p7 false = false) ∧
    (suppressesCompletion p7tab true = false ∧
      claimSuppressSpec p7tab true = true) := by
  decide

/-- Claim C7 amended: the inline-completion gate suppresses a request exactly
when the trimmed line prefix is shorter than 3 characters, or the prefix
contains `//`, `#` or `/*`, or it contains an odd count of single or of double
quote characters (escaped occurrences included), or the trigger is automatic
and the preceding character is a space or a newline; in particular
`"const x = "` is suppressed under an automatic trigger and not under an
explicit one. -/
theorem suppression_characterization :
    (∀ (p : Str) (auto : Bool),
      suppressesCompletion p auto =
        (decide ((jsTrim p).length < 3) || hasSub ("//".data) p ||
          hasSub ("#".data) p || hasSub ("/*".data) p ||
          p.count (Char.ofNat 0x27) % 2 == 1 || p.count '"' % 2 == 1 ||
          (auto && lastIsSpaceOrNl p))) ∧
    suppressesCompletion ("const x = ".data) true = true ∧
    suppressesCompletion ("const x = ".data) false = false := by
  refine ⟨?_, by decide, by decide⟩
  intro p auto
  simp only [suppressesCompletion, shouldSkipCompletion, isInComment, isInString]
  cases h1 : hasSub ("//".data) p <;> cases h2 : hasSub ("#".data) p <;>
    cases h3 : hasSub ("/*".data) p <;>
    cases h4 : (p.count (Char.ofNat 0x27) % 2 == 1) <;>
    cases h5 : (p.count '"' % 2 == 1) <;> cases auto <;>
    cases h6 : lastIsSpaceOrNl p <;> simp

/-- Claim C8 counterexample: with the backend down, `refactorCode` returns its
input unchanged — an identity fallback that varies with the input, not a
human-readable unavailability message. -/
theorem refactor_unhealthy_identity_counterexample :
    refactorCode false ("let x = 1;".data) ("simplify".data) ([] : Str)
        .netError = "let x = 1;".data ∧
    refactorCode false ("let y = 2;".data) ("simplify".data) ([] : Str)
        .netError = "let y = 2;".data ∧
    ("let x = 1;".data : Str) ≠ "let y = 2;".data := by
  decide

/-- Claim C8 amended: with the backend down, `explainCode` and `generateTests`
return fixed human-readable unavailability messages, while `refactorCode`
returns the original input code unchanged. -/
theorem unhealthy_explicit_operations (code ctx instruction : Str)
    (o : HttpOutcome) :
    explainCode false code ctx o =
      "Server not running. Please start the llama.cpp server.".data ∧
    generateTests false code ctx o = "// Test generation not available".data ∧
    refactorCode false code instruction ctx o = code :=
  ⟨rfl, rfl, rfl⟩

/-- Claim C9 counterexample: the llama.cpp provider's `switchModel` is an
unimplemented no-op, so a key present in the cache before the call is still
present after it. -/
theorem switchModel_llama_keeps_cache :
    mapGet [(("k".data : Str), ("v".data : Str))] ("k".data) = some ("v".data) ∧
    mapGet (llamaSwitchModel [(("k".data : Str), ("v".data : Str))]
        ("starcoder".data)) ("k".data) = some ("v".data) := by
  decide

/-- Claim C9 amended: the Ollama provider's `switchModel` clears the completion
cache — after it, every lookup misses — while the llama.cpp provider's
`switchModel` is an unimplemented no-op that leaves the cache unchanged. -/
theorem switchModel_variants :
    (∀ (s : OllamaState) (name k : Str),
      mapGet (ollamaSwitchModel s name).modelCache k = none) ∧
    (∀ (cache : Cache) (name : Str), llamaSwitchModel cache name = cache) :=
  ⟨fun _ _ _ => rfl, fun _ _ => rfl⟩

/-- Claim C10: `refactorCode` returns its input code exactly on every failure
path — backend not running, rejected fetch, non-ok status, or an
empty/whitespace-only response after markdown-fence cleaning. -/
theorem refactorCode_input_on_failure (code instruction ctx : Str)
    (serverRunning : Bool) (o : HttpOutcome)
    (h : serverRunning = false ∨ o = .netError ∨ (∃ c, o = .response false c) ∨
      (∃ c, o = .response true c ∧ cleanFences (contentOrEmpty c) = [])) :
    refactorCode serverRunning code instruction ctx o = code := by
  rcases h with h | h | ⟨c, h⟩ | ⟨c, h, hempty⟩
  · subst h; rfl
  · subst h; cases serverRunning <;> rfl
  · subst h; cases serverRunning <;> rfl
  · subst h; cases serverRunning
    · rfl
    · simp [refactorCode, hempty]

/-- Witness for C10: the server-not-running path at a concrete input. -/
theorem refactorCode_input_on_failure_witness :
    ((false : Bool) = false ∨ HttpOutcome.netError = .netError ∨
      (∃ c, HttpOutcome.netError = .response false c) ∨
      (∃ c, HttpOutcome.netError = .response true c ∧
        cleanFences (contentOrEmpty c) = [])) ∧
    refactorCode false ("let x = 1;".data) ("inline".data) ([] : Str)
        .netError = "let x = 1;".data :=
  ⟨Or.inl rfl,
    refactorCode_input_on_failure ("let x = 1;".data) ("inline".data) [] false
      .netError (Or.inl rfl)⟩

end Sidekick
